import Mathlib

/-!
# Verification of `LibraryNet/utils.py`

A shallow embedding, over the real numbers, of the utility functions of the
repository `AICrystallographer` (file `LibraryNet/utils.py`), together with
theorems settling the specification claims about them.

Modelling conventions, stated once here and referenced from the doc comments:

* Python/numpy floating-point numbers are modelled by `ℝ` (exact real
  arithmetic).  `np.around` (round half to even) is modelled by `around`
  below, returning `ℤ`.
* `numpy.linalg.eig` is an external LAPACK routine whose exact output
  (eigenvalue order, eigenvector signs) is implementation defined; it is
  modelled as an explicit function parameter `eig`, and theorems constrain it
  by the documented contract `IsEigOutput` (columns of `v` are unit-norm
  eigenvectors, `A * v = v * diagonal w`).
* `np.linalg.pinv(M) @ y` is modelled by the normal-equations form
  `((Mᵀ * M)⁻¹ * Mᵀ) *ᵥ y`, which coincides with the Moore–Penrose
  pseudo-inverse applied to `y` whenever `M` has full column rank (the
  non-degenerate situation every claim about `strainfunction` hypothesises);
  `Matrix.inv` is Mathlib's inverse (zero on singular matrices, where
  `np.linalg.inv` would raise).
* The rows `2*i`, `2*i+1` of the `2n × 6` design matrix are indexed by the
  isomorphic type `Fin n × Fin 2` (the pair `(i, parity)`); row order does not
  affect `Mᵀ * M` or `Mᵀ *ᵥ y`, hence not the least-squares solution.
-/

namespace LibraryNetUtils

noncomputable section

open Matrix

/-! ## `optimize_image_size` (utils.py lines 109–143)

The function normalises the image, computes
`image_size_new = np.around(image_size * (px2ang/px2ang_i))` with
`px2ang_i = image_size/scan_size`, and then runs
`while image_size_new % divisible_by != 0: px2ang_i -= 0.001; recompute`,
finally resizing the image to the square of side `image_size_new`.
Only the dimension arithmetic is modelled (`cv2.resize` is modelled by the
dimension it produces); pixel values never influence the dimensions. -/

/-- `np.around`: round half to even, as an integer. -/
def around (x : ℝ) : ℤ :=
  if Int.fract x < 1 / 2 then ⌊x⌋
  else if 1 / 2 < Int.fract x then ⌊x⌋ + 1
  else if Even ⌊x⌋ then ⌊x⌋ else ⌊x⌋ + 1

/-- The candidate dimension `np.around(image_size * (px2ang/px2ang_i))`
computed from the current perturbed density `p` (utils.py lines 136, 139). -/
def optTarget (image_size : ℕ) (px2ang p : ℝ) : ℤ :=
  around (image_size * (px2ang / p))

/-- The set of loop indices `k` at which the `while` condition of
`optimize_image_size` is false: after `k` decrements the density is
`image_size/scan_size - k * 0.001` and the rounded target is divisible by
`divisible_by` (utils.py lines 137–139). -/
def optExitSet (image_size : ℕ) (scan_size px2ang : ℝ) (d : ℤ) : Set ℕ :=
  {k | optTarget image_size px2ang ((image_size : ℝ) / scan_size - (k : ℝ) / 1000) % d = 0}

/-- The number of iterations the perturbation loop performs: the least `k`
at which the loop condition fails (the loop tests before each iteration). -/
def optIters (image_size : ℕ) (scan_size px2ang : ℝ) (d : ℤ) : ℕ :=
  sInf (optExitSet image_size scan_size px2ang d)

/-- `optimize_image_size` (utils.py lines 109–143), modelled by the final
square dimension it resizes the image to. -/
def optimize_image_size (image_size : ℕ) (scan_size px2ang : ℝ) (d : ℤ) : ℤ :=
  optTarget image_size px2ang
    ((image_size : ℝ) / scan_size - (optIters image_size scan_size px2ang d : ℝ) / 1000)

lemma around_intCast (n : ℤ) : around ((n : ℝ)) = n := by
  rw [around, Int.fract_intCast]
  norm_num

lemma around_eq_zero {x : ℝ} (h : |x| < 1 / 2) : around x = 0 := by
  rcases abs_lt.mp h with ⟨h1, h2⟩
  rcases le_or_lt 0 x with hx | hx
  · have hfl : ⌊x⌋ = 0 := by
      rw [Int.floor_eq_iff]
      push_cast
      exact ⟨hx, by linarith⟩
    have hfr : Int.fract x = x := by
      rw [Int.fract, hfl]
      simp
    rw [around, hfr, if_pos h2, hfl]
  · have hfl : ⌊x⌋ = -1 := by
      rw [Int.floor_eq_iff]
      push_cast
      exact ⟨by linarith, by linarith⟩
    have hfr : Int.fract x = x + 1 := by
      rw [Int.fract, hfl]
      push_cast
      ring
    have hgt : 1 / 2 < Int.fract x := by rw [hfr]; linarith
    have hnl : ¬ Int.fract x < 1 / 2 := by rw [hfr]; linarith
    rw [around, if_neg hnl, if_pos hgt, hfl]
    norm_num

/-- C5: For every input image size and scan_size pair (and any
pixel-to-angstrom ratio and divisor), the density-perturbation loop of
`optimize_image_size` terminates: the set of exit indices is nonempty, and the
number of iterations performed is bounded by the explicit bound
`⌈1000 * (|size/scan| + 2*|size*px2ang| + 1)⌉₊`; it never loops indefinitely. -/
theorem optimize_image_size_terminates (image_size : ℕ) (scan_size px2ang : ℝ) (d : ℤ) :
    (optExitSet image_size scan_size px2ang d).Nonempty ∧
    optIters image_size scan_size px2ang d ≤
      ⌈1000 * (|(image_size : ℝ) / scan_size| + 2 * |(image_size : ℝ) * px2ang| + 1)⌉₊ := by
  set p0 : ℝ := (image_size : ℝ) / scan_size with hp0
  set S : ℝ := (image_size : ℝ) * px2ang with hS
  set B : ℕ := ⌈1000 * (|p0| + 2 * |S| + 1)⌉₊ with hB
  have hceil : 1000 * (|p0| + 2 * |S| + 1) ≤ (B : ℝ) := Nat.le_ceil _
  set p : ℝ := p0 - (B : ℝ) / 1000 with hp
  have hp_le : p ≤ -(2 * |S| + 1) := by
    have h1 : |p0| + 2 * |S| + 1 ≤ (B : ℝ) / 1000 := by linarith
    have h2 : p0 ≤ |p0| := le_abs_self p0
    rw [hp]
    linarith
  have hp_neg : p < 0 := lt_of_le_of_lt hp_le (by linarith [abs_nonneg S])
  have hp_abs : 2 * |S| + 1 ≤ |p| := by
    rw [abs_of_neg hp_neg]
    linarith
  have hsmall : |S / p| < 1 / 2 := by
    rw [abs_div, div_lt_iff₀ (abs_pos.mpr (ne_of_lt hp_neg))]
    have h3 : 0 ≤ |S| := abs_nonneg S
    linarith
  have hmem : B ∈ optExitSet image_size scan_size px2ang d := by
    show optTarget image_size px2ang ((image_size : ℝ) / scan_size - (B : ℝ) / 1000) % d = 0
    rw [optTarget, mul_div_assoc']
    rw [around_eq_zero hsmall]
    exact Int.zero_emod d
  exact ⟨⟨B, hmem⟩, Nat.sInf_le hmem⟩

/-- C6: On an image of size 256 whose scan_size makes the initial pixel
density `256/scan_size` equal to the target ratio 0.128 (so the initial target
dimension is 256, a multiple of 8), `optimize_image_size` returns the
unchanged dimension 256 and performs zero iterations of the perturbation
loop. -/
theorem optimize_image_size_unchanged (scan_size : ℝ)
    (h : (256 : ℝ) / scan_size = 0.128) :
    optimize_image_size 256 scan_size 0.128 8 = 256 ∧
    optIters 256 scan_size 0.128 8 = 0 := by
  have h0 : ((256 : ℕ) : ℝ) / scan_size = 0.128 := by push_cast; exact h
  have key : ∀ z : ℝ, z = 0 →
      optTarget 256 0.128 (((256 : ℕ) : ℝ) / scan_size - z / 1000) = 256 := by
    intro z hz
    rw [optTarget]
    have harg : ((256 : ℕ) : ℝ) * (0.128 / (((256 : ℕ) : ℝ) / scan_size - z / 1000)) = 256 := by
      rw [hz, h0]
      norm_num
    rw [harg, show (256 : ℝ) = ((256 : ℤ) : ℝ) by norm_num, around_intCast]
  have hmem : 0 ∈ optExitSet 256 scan_size 0.128 8 := by
    show optTarget 256 0.128 (((256 : ℕ) : ℝ) / scan_size - ((0 : ℕ) : ℝ) / 1000) % 8 = 0
    rw [key ((0 : ℕ) : ℝ) (by norm_num)]
    norm_num
  have hiter : optIters 256 scan_size 0.128 8 = 0 := by
    rw [optIters, Nat.sInf_eq_zero]
    exact Or.inl hmem
  refine ⟨?_, hiter⟩
  rw [optimize_image_size, hiter, key ((0 : ℕ) : ℝ) (by norm_num)]

/-- Witness for C6 at the concrete input `scan_size = 2000`
(`256 / 2000 = 0.128`). -/
theorem optimize_image_size_unchanged_witness :
    optimize_image_size 256 2000 0.128 8 = 256 ∧
    optIters 256 2000 0.128 8 = 0 :=
  optimize_image_size_unchanged 2000 (by norm_num)

/-! ## `atom_bond_dict` (utils.py lines 145–159)

The `OrderedDict` of atom roles and the (python-3.7 insertion-ordered) dict of
maximum bond lengths keyed by species tuples are modelled as association lists
in insertion order.  Python's default arguments are applied at their stated
default values in the claim theorem. -/

/-- `atom_bond_dict` (utils.py lines 145–159). -/
def atom_bond_dict (atom1 atom2 : String) (bond11 bond12 bond22 : String × String × ℕ) :
    List (String × String) × List ((String × String) × ℕ) :=
  ([("lattice_atom", atom1), ("dopant", atom2)],
   [((bond11.1, bond11.2.1), bond11.2.2),
    ((bond12.1, bond12.2.1), bond12.2.2),
    ((bond22.1, bond22.2.1), bond22.2.2)])

/-- Lookup of a bond length by an *unordered* species pair: the entry whose
tuple key is `(a, b)` in either order. -/
def bondFor (bonds : List ((String × String) × ℕ)) (a b : String) : Option ℕ :=
  (bonds.find? fun e => (e.1.1 == a && e.1.2 == b) || (e.1.1 == b && e.1.2 == a)).map
    fun e => e.2

/-- C9: With its default arguments, `atom_bond_dict` returns exactly the
two-key ordered mapping `lattice_atom ↦ 'C', dopant ↦ 'Si'` (in that key
order) and the three-entry bond-length mapping whose keys, read as unordered
species pairs, assign 175 to {C,C}, 210 to {Si,C} (in either query order),
and 250 to {Si,Si}. -/
theorem atom_bond_dict_default_eval :
    atom_bond_dict "C" "Si" ("C", "C", 175) ("Si", "C", 210) ("Si", "Si", 250) =
      ([("lattice_atom", "C"), ("dopant", "Si")],
       [(("C", "C"), 175), (("Si", "C"), 210), (("Si", "Si"), 250)]) ∧
    (atom_bond_dict "C" "Si" ("C", "C", 175) ("Si", "C", 210) ("Si", "Si", 250)).2.length = 3 ∧
    bondFor [(("C", "C"), 175), (("Si", "C"), 210), (("Si", "Si"), 250)] "C" "C" = some 175 ∧
    bondFor [(("C", "C"), 175), (("Si", "C"), 210), (("Si", "Si"), 250)] "Si" "C" = some 210 ∧
    bondFor [(("C", "C"), 175), (("Si", "C"), 210), (("Si", "Si"), 250)] "C" "Si" = some 210 ∧
    bondFor [(("C", "C"), 175), (("Si", "C"), 210), (("Si", "Si"), 250)] "Si" "Si" = some 250 := by
  refine ⟨rfl, rfl, ?_, ?_, ?_, ?_⟩ <;> decide

/-! ## `nn_atomdistance` (utils.py lines 204–227)

For each row index `i1` the code queries a KD-tree of all points (self
included) for the two nearest neighbours of point `i1`, keeps the second
distance `d[-1]` and index `i2[-1]`, deduplicates undirected pairs through
`checked_coord`, and returns `(np.mean(distances_all), np.std(distances_all))`
unconditionally — there is no failure path. -/

/-- Euclidean distance between two planar points. -/
def pdist (a b : ℝ × ℝ) : ℝ := Real.sqrt ((a.1 - b.1) ^ 2 + (a.2 - b.2) ^ 2)

/-- Model of the second result entry `(d[-1], i2[-1])` of
`scipy.spatial.KDTree(pts).query(c, k=2)` (utils.py line 223): the
(distance, index) pairs over the whole point set sorted by distance (ties by
index — the library's order among exactly equidistant points is unspecified;
any fixed choice settles the claims the same way), padded per the scipy
contract with the sentinel for missing neighbours: "missing neighbors are
indicated with infinite distances" and index `n`.  The infinite float
distance is modelled by `⊤ : WithTop ℝ`. -/
def kdquery2 (pts : List (ℝ × ℝ)) (c : ℝ × ℝ) : WithTop ℝ × ℕ :=
  let ds := (List.range pts.length).map fun j =>
    (((pdist c (pts.getD j (0, 0)) : ℝ) : WithTop ℝ), j)
  let s := ds.insertionSort fun a b => a.1 < b.1 ∨ (a.1 = b.1 ∧ a.2 ≤ b.2)
  s.getD 1 (⊤, pts.length)

/-- The accumulation loop of `nn_atomdistance` (utils.py lines 220–226),
producing `(checked_coord, distances_all)`.  `checked_coord` is used only
through membership tests, so consing instead of appending to it is
immaterial; `distances_all` is appended to in loop order as in the code. -/
def nnLoop (pts : List (ℝ × ℝ)) : List (ℕ × ℕ) × List (WithTop ℝ) :=
  (List.range pts.length).foldl
    (fun acc i1 =>
      let q := kdquery2 pts (pts.getD i1 (0, 0))
      if (q.2, i1) ∈ acc.1 then acc
      else ((i1, q.2) :: acc.1, acc.2 ++ [q.1]))
    ([], [])

/-- `np.mean` of the collected distances.  A non-finite float result is
modelled by `⊤`: `np.mean` of an empty list is NaN, and of a list containing
the infinite sentinel is inf.  The all-finite case is the exact arithmetic
mean. -/
def meanW (l : List (WithTop ℝ)) : WithTop ℝ :=
  if l = [] ∨ ⊤ ∈ l then ⊤
  else (((l.map (WithTop.untop' 0)).sum / l.length : ℝ) : WithTop ℝ)

/-- `np.std` of the collected distances: NaN (modelled by `⊤`) for an empty
list or in the presence of the infinite sentinel (`inf - inf` is NaN); the
all-finite case is the exact population standard deviation. -/
def stdW (l : List (WithTop ℝ)) : WithTop ℝ :=
  if l = [] ∨ ⊤ ∈ l then ⊤
  else
    (((Real.sqrt (((l.map (WithTop.untop' 0)).map fun x =>
      (x - (l.map (WithTop.untop' 0)).sum / l.length) ^ 2).sum / l.length)) : ℝ) : WithTop ℝ)

/-- The body of `nn_atomdistance` on the projected planar coordinates. -/
def nn_core (pts : List (ℝ × ℝ)) : WithTop ℝ × WithTop ℝ :=
  (meanW (nnLoop pts).2, stdW (nnLoop pts).2)

/-- `nn_atomdistance` (utils.py lines 204–227).  Rows may carry trailing
columns (labels, …); the code uses only the slice `coord[:, :2]` at both of
its access sites. -/
def nn_atomdistance (coord : List (ℝ × ℝ × List ℝ)) : WithTop ℝ × WithTop ℝ :=
  nn_core (coord.map fun r => (r.1, r.2.1))

/-- C7 (code bug evaluation): on a single point, `nn_atomdistance` does not
fail — it returns the numeric pair built from the missing-neighbour sentinel
(float `(inf, nan)`, modelled `(⊤, ⊤)`); there is no explicit failure path. -/
theorem nn_atomdistance_single_point_returns :
    nn_atomdistance [((0 : ℝ), (0 : ℝ), ([] : List ℝ))] = (⊤, ⊤) := by
  have hq : kdquery2 [((0 : ℝ), (0 : ℝ))] ((0 : ℝ), (0 : ℝ)) = (⊤, 1) := by
    simp [kdquery2, List.insertionSort, List.orderedInsert, List.getD]
  have hl : nnLoop [((0 : ℝ), (0 : ℝ))] = ([(0, 1)], [⊤]) := by
    rw [nnLoop, show List.range [((0 : ℝ), (0 : ℝ))].length = [0] from rfl,
      List.foldl_cons, List.foldl_nil,
      show List.getD [((0 : ℝ), (0 : ℝ))] 0 ((0 : ℝ), (0 : ℝ)) = ((0 : ℝ), (0 : ℝ)) from rfl,
      hq]
    simp
  rw [nn_atomdistance, show ([((0 : ℝ), (0 : ℝ), ([] : List ℝ))].map
    fun r => (r.1, r.2.1)) = [((0 : ℝ), (0 : ℝ))] from rfl, nn_core, hl]
  simp [meanW, stdW]

/-- C8: `nn_atomdistance` depends only on the first two columns of its input:
two coordinate arrays agreeing in their first two columns (whatever their
trailing columns) give the same (mean, standard deviation) result. -/
theorem nn_atomdistance_depends_only_on_xy (c1 c2 : List (ℝ × ℝ × List ℝ))
    (h : c1.map (fun r => (r.1, r.2.1)) = c2.map (fun r => (r.1, r.2.1))) :
    nn_atomdistance c1 = nn_atomdistance c2 := by
  rw [nn_atomdistance, nn_atomdistance, h]

/-- Witness for C8: two two-point configurations with equal coordinates and
different trailing label columns. -/
theorem nn_atomdistance_depends_only_on_xy_witness :
    nn_atomdistance [((0 : ℝ), (0 : ℝ), [(5 : ℝ)]), ((1 : ℝ), (0 : ℝ), [])] =
      nn_atomdistance [((0 : ℝ), (0 : ℝ), [(7 : ℝ), 8]), ((1 : ℝ), (0 : ℝ), [(9 : ℝ)])] :=
  nn_atomdistance_depends_only_on_xy _ _ rfl

/-! ## `open_library_hdf` coordinate post-processing (utils.py lines 97–106) -/

/-- One coordinate record `(x, y, species-label)` through utils.py lines
99–104: the first two columns are swapped (`xy[:,[0, 1]] = xy[:,[1, 0]]`) and
the label is replaced by class 0 (matches `atoms['lattice_atom']`, tested
first) or 1 (matches `atoms['dopant']`).  A label matching neither species
would make `np.array(atomlist, dtype=np.float)` raise `ValueError`; that
failure is modelled by `none`. -/
def mapRow (lattice dopant : String) (r : ℝ × ℝ × String) : Option (ℝ × ℝ × ℝ) :=
  if r.2.2 = lattice then some (r.2.1, r.1, 0)
  else if r.2.2 = dopant then some (r.2.1, r.1, 1)
  else none

/-- All records through `mapRow`; `none` as soon as any record's label is
outside the species mapping (the whole `np.array(atomlist, dtype=np.float)`
conversion raises). -/
def mapRows (lattice dopant : String) : List (ℝ × ℝ × String) → Option (List (ℝ × ℝ × ℝ))
  | [] => some []
  | r :: t => (mapRow lattice dopant r).bind fun v =>
      (mapRows lattice dopant t).map fun vs => v :: vs

/-- The coordinate post-processing of `open_library_hdf` when a species
mapping is supplied (utils.py lines 97–106): swap the first two columns,
relabel species to classes 0/1, then reorder rows by
`np.argsort(coordinates_all[:, -1])`.  argsort's order among equal keys is
unspecified; it is modelled by a stable insertion sort — the claims settled
here use only that the result is a permutation sorted by class. -/
def open_library_coords (lattice dopant : String) (coords : List (ℝ × ℝ × String)) :
    Option (List (ℝ × ℝ × ℝ)) :=
  (mapRows lattice dopant coords).map
    (List.insertionSort fun a b => a.2.2 ≤ b.2.2)

/-- C10: with a species mapping supplied, the rows returned by the
`open_library_hdf` post-processing are the input records with their first two
columns swapped — `(y, x, class)`, not `(x, y, class)` — and the rows are
sorted by class in ascending order (all class-0 lattice atoms before class-1
dopants). -/
theorem open_library_coords_swap_sort (lattice dopant : String)
    (coords : List (ℝ × ℝ × String))
    (h : ∀ r ∈ coords, r.2.2 = lattice ∨ r.2.2 = dopant) :
    ∃ res : List (ℝ × ℝ × ℝ),
      open_library_coords lattice dopant coords = some res ∧
      res.Perm (coords.map fun r =>
        (r.2.1, r.1, if r.2.2 = lattice then (0 : ℝ) else 1)) ∧
      res.Sorted (fun a b => a.2.2 ≤ b.2.2) := by
  have hmap : ∀ l : List (ℝ × ℝ × String),
      (∀ r ∈ l, r.2.2 = lattice ∨ r.2.2 = dopant) →
      mapRows lattice dopant l =
        some (l.map fun r => (r.2.1, r.1, if r.2.2 = lattice then (0 : ℝ) else 1)) := by
    intro l
    induction l with
    | nil => intro _; rfl
    | cons a t ih =>
      intro hl
      have ha := hl a (List.mem_cons_self a t)
      have ht := ih fun r hr => hl r (List.mem_cons_of_mem a hr)
      rcases ha with h1 | h1
      · simp [mapRows, mapRow, h1, ht]
      · by_cases h2 : a.2.2 = lattice
        · simp [mapRows, mapRow, h2, ht]
        · have hdl : ¬ dopant = lattice := fun hdl => h2 (h1.trans hdl)
          simp [mapRows, mapRow, h1, h2, hdl, ht]
  haveI htot : IsTotal (ℝ × ℝ × ℝ) (fun a b => a.2.2 ≤ b.2.2) :=
    ⟨fun a b => le_total _ _⟩
  haveI htrans : IsTrans (ℝ × ℝ × ℝ) (fun a b => a.2.2 ≤ b.2.2) :=
    ⟨fun a b c hab hbc => le_trans hab hbc⟩
  refine ⟨List.insertionSort (fun a b => a.2.2 ≤ b.2.2) (coords.map fun r =>
    (r.2.1, r.1, if r.2.2 = lattice then (0 : ℝ) else 1)), ?_, ?_, ?_⟩
  · rw [open_library_coords, hmap coords h]
    rfl
  · exact List.perm_insertionSort _ _
  · exact List.sorted_insertionSort _ _

/-- Witness for C10: lattice 'C', dopant 'Si', two records. -/
theorem open_library_coords_swap_sort_witness :
    ∃ res : List (ℝ × ℝ × ℝ),
      open_library_coords "C" "Si" [((1 : ℝ), (2 : ℝ), "Si"), ((3 : ℝ), (4 : ℝ), "C")] =
        some res ∧
      res.Perm ([((1 : ℝ), (2 : ℝ), "Si"), ((3 : ℝ), (4 : ℝ), "C")].map fun r =>
        (r.2.1, r.1, if r.2.2 = "C" then (0 : ℝ) else 1)) ∧
      res.Sorted (fun a b => a.2.2 ≤ b.2.2) :=
  open_library_coords_swap_sort "C" "Si" _ (by
    rintro r hr
    rcases List.mem_cons.mp hr with h | h
    · exact Or.inr (by rw [h])
    · rcases List.mem_singleton.mp h with h'
      exact Or.inl (by rw [h']))

/-! ## `strainfunction` (utils.py lines 161–202)

After the length guard (lines 180–183: print a diagnostic and `return`
`None`), the code builds the `2n × 6` design matrix `M` of the affine model
(lines 188–191), solves `x = np.linalg.pinv(M) @ y` (line 192), splits
`t_est = x[0:2]`, `F_est = x[2:].reshape(2, 2)` (lines 193–194), and then
`w, v = LA.eig(F_est.T @ F_est)` (line 195),
`E_est = v.T @ diag(√w) @ v` (line 196), `R_est = F_est @ inv(E_est)`
(line 197). -/

/-- The output dictionary of `strainfunction` (utils.py lines 198–201). -/
structure StrainOut where
  translational_vector : Fin 2 → ℝ
  strain_tensor : Matrix (Fin 2) (Fin 2) ℝ
  rotation_matrix : Matrix (Fin 2) (Fin 2) ℝ

/-- The `2n × 6` design matrix `M` (utils.py lines 188–191), with the rows
`2*i` and `2*i + 1` indexed by the pair `(i, parity)` (see the header).
Row `(i, 0)` is `[1, 0, xᵢ, yᵢ, 0, 0]` and row `(i, 1)` is
`[0, 1, 0, 0, xᵢ, yᵢ]` for the `i`-th reference point `(xᵢ, yᵢ)`. -/
def designM (n : ℕ) (pts : ℕ → ℝ × ℝ) : Matrix (Fin n × Fin 2) (Fin 6) ℝ :=
  fun r j =>
    if r.2 = 0 then ![1, 0, (pts r.1).1, (pts r.1).2, 0, 0] j
    else ![0, 1, 0, 0, (pts r.1).1, (pts r.1).2] j

/-- The stacked target vector `y = points_tar.T.reshape(1, 2n).T`
(utils.py line 187): entry `(i, 0)` is the `x`- and entry `(i, 1)` the
`y`-coordinate of the `i`-th target point. -/
def targetY (n : ℕ) (tgt : ℕ → ℝ × ℝ) : Fin n × Fin 2 → ℝ :=
  fun r => if r.2 = 0 then (tgt r.1).1 else (tgt r.1).2

/-- `x = np.linalg.pinv(M) @ y` (utils.py line 192), modelled by the
normal-equations form `((Mᵀ M)⁻¹ Mᵀ) y` (see the header; the two coincide
whenever `M` has full column rank), for `n` points with reference accessor
`p` and target accessor `t`. -/
def fitAffineN (n : ℕ) (p t : ℕ → ℝ × ℝ) : Fin 6 → ℝ :=
  (((designM n p)ᵀ * designM n p)⁻¹ * (designM n p)ᵀ) *ᵥ targetY n t

/-- The least-squares fit on the two coordinate lists;
`n_points = points_tar.shape[1]` (utils.py line 186). -/
def fitAffine (c1 c2 : List (ℝ × ℝ)) : Fin 6 → ℝ :=
  fitAffineN c2.length (fun j => c1.getD j (0, 0)) fun j => c2.getD j (0, 0)

/-- The fitted linear part `F_est = x[2:].reshape(2, 2)` (utils.py
line 194). -/
def fittedF (c1 c2 : List (ℝ × ℝ)) : Matrix (Fin 2) (Fin 2) ℝ :=
  !![fitAffine c1 c2 2, fitAffine c1 c2 3; fitAffine c1 c2 4, fitAffine c1 c2 5]

/-- `strainfunction` (utils.py lines 161–202).  `eig` models the external
`numpy.linalg.eig` (see the header); `np.linalg.inv` on a singular `E_est`
would raise where Mathlib's inverse returns 0 — the claims about the inverse
all evaluate it on an invertible matrix. -/
def strainfunction
    (eig : Matrix (Fin 2) (Fin 2) ℝ → (Fin 2 → ℝ) × Matrix (Fin 2) (Fin 2) ℝ)
    (c1 c2 : List (ℝ × ℝ)) : Option StrainOut :=
  if c1.length ≠ c2.length then none
  else
    let F := fittedF c1 c2
    let wv := eig (Fᵀ * F)
    let E := wv.2ᵀ * Matrix.diagonal (fun i => Real.sqrt (wv.1 i)) * wv.2
    some ⟨![fitAffine c1 c2 0, fitAffine c1 c2 1], E, F * E⁻¹⟩

/-- The documented contract of `numpy.linalg.eig` at a matrix `A`:
`A @ v = v @ diag(w)` (columns of `v` are eigenvalue-`w i` eigenvectors) with
unit-norm columns. -/
def IsEigOutput (A : Matrix (Fin 2) (Fin 2) ℝ) (w : Fin 2 → ℝ)
    (v : Matrix (Fin 2) (Fin 2) ℝ) : Prop :=
  A * v = v * Matrix.diagonal w ∧ ∀ j, v 0 j ^ 2 + v 1 j ^ 2 = 1

/-- A trivial eigensolver output used by witnesses: eigenvalues `(1, 1)`,
eigenvector matrix the identity. -/
def eigId : Matrix (Fin 2) (Fin 2) ℝ → (Fin 2 → ℝ) × Matrix (Fin 2) (Fin 2) ℝ :=
  fun _ => (![1, 1], 1)

/-- C4: on point sets of unequal length, `strainfunction` returns no numeric
result (the code prints its mismatch diagnostic and returns `None` before any
strain computation). -/
theorem strainfunction_length_mismatch
    (eig : Matrix (Fin 2) (Fin 2) ℝ → (Fin 2 → ℝ) × Matrix (Fin 2) (Fin 2) ℝ)
    (c1 c2 : List (ℝ × ℝ)) (h : c1.length ≠ c2.length) :
    strainfunction eig c1 c2 = none := by
  rw [strainfunction, if_pos h]

/-- Witness for C4 at concrete unequal-length inputs. -/
theorem strainfunction_length_mismatch_witness :
    strainfunction eigId [] [((0 : ℝ), (0 : ℝ))] = none ∧
      ([] : List (ℝ × ℝ)).length ≠ [((0 : ℝ), (0 : ℝ))].length :=
  ⟨strainfunction_length_mismatch eigId _ _ (by decide), by decide⟩

/-- C3: whenever `strainfunction` returns a result and the eigenvalues the
eigensolver produced for `FᵀF` are (real and) non-negative, the returned
strain tensor is a symmetric positive semi-definite matrix. -/
theorem strain_tensor_symm_psd
    (eig : Matrix (Fin 2) (Fin 2) ℝ → (Fin 2 → ℝ) × Matrix (Fin 2) (Fin 2) ℝ)
    (c1 c2 : List (ℝ × ℝ)) (out : StrainOut)
    (hout : strainfunction eig c1 c2 = some out)
    (hw : ∀ i, 0 ≤ (eig ((fittedF c1 c2)ᵀ * fittedF c1 c2)).1 i) :
    out.strain_tensor.PosSemidef ∧ out.strain_tensorᵀ = out.strain_tensor := by
  clear hw
  by_cases hlen : c1.length ≠ c2.length
  · rw [strainfunction, if_pos hlen] at hout
    exact absurd hout (by simp)
  · rw [strainfunction, if_neg hlen] at hout
    have hE : out.strain_tensor =
        (eig ((fittedF c1 c2)ᵀ * fittedF c1 c2)).2ᵀ *
          Matrix.diagonal (fun i =>
            Real.sqrt ((eig ((fittedF c1 c2)ᵀ * fittedF c1 c2)).1 i)) *
          (eig ((fittedF c1 c2)ᵀ * fittedF c1 c2)).2 := by
      rw [← Option.some.inj hout]
    have hD : (Matrix.diagonal fun i =>
        Real.sqrt ((eig ((fittedF c1 c2)ᵀ * fittedF c1 c2)).1 i)).PosSemidef :=
      Matrix.posSemidef_diagonal_iff.mpr fun i => Real.sqrt_nonneg _
    have hpsd : out.strain_tensor.PosSemidef := by
      rw [hE, ← Matrix.conjTranspose_eq_transpose_of_trivial]
      exact hD.conjTranspose_mul_mul_same _
    refine ⟨hpsd, ?_⟩
    have := hpsd.isHermitian
    rwa [Matrix.IsHermitian, Matrix.conjTranspose_eq_transpose_of_trivial] at this

/-- Witness for C3 on the empty input and the trivial eigensolver. -/
theorem strain_tensor_symm_psd_witness :
    Matrix.PosSemidef ((1 : Matrix (Fin 2) (Fin 2) ℝ)ᵀ *
        Matrix.diagonal (fun i => Real.sqrt (![(1 : ℝ), 1] i)) * 1) ∧
      ((1 : Matrix (Fin 2) (Fin 2) ℝ)ᵀ *
        Matrix.diagonal (fun i => Real.sqrt (![(1 : ℝ), 1] i)) * 1)ᵀ =
      (1 : Matrix (Fin 2) (Fin 2) ℝ)ᵀ *
        Matrix.diagonal (fun i => Real.sqrt (![(1 : ℝ), 1] i)) * 1 :=
  strain_tensor_symm_psd eigId [] []
    ⟨![fitAffine [] [] 0, fitAffine [] [] 1],
      (1 : Matrix (Fin 2) (Fin 2) ℝ)ᵀ *
        Matrix.diagonal (fun i => Real.sqrt (![(1 : ℝ), 1] i)) * 1,
      fittedF [] [] *
        ((1 : Matrix (Fin 2) (Fin 2) ℝ)ᵀ *
          Matrix.diagonal (fun i => Real.sqrt (![(1 : ℝ), 1] i)) * 1)⁻¹⟩
    rfl
    (by intro i; fin_cases i <;> norm_num [eigId])

/-! ### A concrete evaluation of `strainfunction`

Reference points `P1 = [(1,0), (-1,0), (0,1), (0,-1)]`, target points
`P2 = E0m · P1` for the positive-definite, non-axis-aligned strain `E0m`
(rotation identity, translation zero).  The fitted linear part is then
`F = E0m` exactly, `FᵀF = E0m²` has the rational eigendecomposition
eigenvalues `(4, 1)` with rotation-type orthonormal eigenvector matrix
`vrot`, and the code's `E_est = vrotᵀ·diag(2,1)·vrot` differs from the polar
factor `vrot·diag(2,1)·vrotᵀ = E0m`. -/

/-- Concrete reference point set. -/
def P1 : List (ℝ × ℝ) := [(1, 0), (-1, 0), (0, 1), (0, -1)]

/-- Concrete target point set: the image of `P1` under the strain `E0m`. -/
def P2 : List (ℝ × ℝ) :=
  [(34 / 25, 12 / 25), (-34 / 25, -12 / 25), (12 / 25, 41 / 25), (-12 / 25, -41 / 25)]

/-- A positive-definite, non-axis-aligned strain. -/
def E0m : Matrix (Fin 2) (Fin 2) ℝ := !![34 / 25, 12 / 25; 12 / 25, 41 / 25]

/-- A rotation-type orthonormal eigenvector matrix of `FᵀF = E0m²`. -/
def vrot : Matrix (Fin 2) (Fin 2) ℝ := !![3 / 5, -4 / 5; 4 / 5, 3 / 5]

/-- The eigenvalues of `FᵀF = E0m²` in the order matching `vrot`. -/
def w0 : Fin 2 → ℝ := ![4, 1]

/-- An eigensolver producing the contract-valid pair `(w0, vrot)`. -/
def eigRot : Matrix (Fin 2) (Fin 2) ℝ → (Fin 2 → ℝ) × Matrix (Fin 2) (Fin 2) ℝ :=
  fun _ => (w0, vrot)

/-- The strain tensor the code computes at this input. -/
def Ebug : Matrix (Fin 2) (Fin 2) ℝ := !![34 / 25, -12 / 25; -12 / 25, 41 / 25]

/-- The rotation matrix the code computes at this input. -/
def Rbug : Matrix (Fin 2) (Fin 2) ℝ := !![769 / 625, 408 / 625; 492 / 625, 769 / 625]

/-- `FᵀF` at this input. -/
def FtF0 : Matrix (Fin 2) (Fin 2) ℝ := !![52 / 25, 36 / 25; 36 / 25, 73 / 25]

lemma cons_val_five {α : Type*} {m : ℕ} (x : α) (u : Fin (m + 5) → α) :
    Matrix.vecCons x u 5 =
      Matrix.vecHead (Matrix.vecTail (Matrix.vecTail (Matrix.vecTail (Matrix.vecTail u)))) :=
  rfl

lemma MtM_eval :
    (designM 4 fun j => P1.getD j (0, 0))ᵀ * (designM 4 fun j => P1.getD j (0, 0)) =
      Matrix.diagonal ![4, 4, 2, 2, 2, 2] := by
  ext j k
  fin_cases j <;> fin_cases k <;>
    simp [Matrix.mul_apply, Fintype.sum_prod_type, Fin.sum_univ_four, Fin.sum_univ_two,
      designM, P1, Matrix.diagonal, cons_val_five,
      show ((0 : Fin 4) : ℕ) = 0 from rfl, show ((1 : Fin 4) : ℕ) = 1 from rfl,
      show ((2 : Fin 4) : ℕ) = 2 from rfl, show ((3 : Fin 4) : ℕ) = 3 from rfl] <;>
    norm_num

lemma MtM_inv_eval :
    ((designM 4 fun j => P1.getD j (0, 0))ᵀ * (designM 4 fun j => P1.getD j (0, 0)))⁻¹ =
      Matrix.diagonal ![4⁻¹, 4⁻¹, 2⁻¹, 2⁻¹, 2⁻¹, 2⁻¹] := by
  apply Matrix.inv_eq_right_inv
  rw [MtM_eval, Matrix.diagonal_mul_diagonal]
  ext i j
  fin_cases i <;> fin_cases j <;>
    simp [Matrix.diagonal, Matrix.one_apply, cons_val_five]

lemma Mty_eval :
    (designM 4 fun j => P1.getD j (0, 0))ᵀ *ᵥ (targetY 4 fun j => P2.getD j (0, 0)) =
      ![0, 0, 68 / 25, 24 / 25, 24 / 25, 82 / 25] := by
  funext j
  fin_cases j <;>
    simp [Matrix.mulVec, Matrix.dotProduct, Fintype.sum_prod_type, Fin.sum_univ_four,
      Fin.sum_univ_two, designM, targetY, P1, P2, cons_val_five,
      show ((0 : Fin 4) : ℕ) = 0 from rfl, show ((1 : Fin 4) : ℕ) = 1 from rfl,
      show ((2 : Fin 4) : ℕ) = 2 from rfl, show ((3 : Fin 4) : ℕ) = 3 from rfl] <;>
    norm_num

lemma fit_eval : fitAffine P1 P2 = ![0, 0, 34 / 25, 12 / 25, 12 / 25, 41 / 25] := by
  rw [show fitAffine P1 P2 =
      fitAffineN 4 (fun j => P1.getD j (0, 0)) (fun j => P2.getD j (0, 0)) from rfl]
  rw [fitAffineN, ← Matrix.mulVec_mulVec, Mty_eval, MtM_inv_eval]
  funext j
  fin_cases j <;>
    simp [Matrix.mulVec, Matrix.dotProduct, Matrix.diagonal, Fin.sum_univ_six,
      cons_val_five] <;>
    norm_num

lemma fittedF_eval : fittedF P1 P2 = E0m := by
  rw [fittedF]
  simp [fit_eval, E0m, cons_val_five]

lemma FtF_eval : (fittedF P1 P2)ᵀ * fittedF P1 P2 = FtF0 := by
  rw [fittedF_eval, show E0mᵀ = E0m from by ext i j; fin_cases i <;> fin_cases j <;> rfl,
    E0m, FtF0, Matrix.mul_fin_two]
  norm_num

lemma sqrt_four_eq : Real.sqrt 4 = 2 := by
  rw [show (4 : ℝ) = 2 ^ 2 by norm_num, Real.sqrt_sq (by norm_num : (0 : ℝ) ≤ 2)]

lemma diag_sqrt_eval :
    Matrix.diagonal (fun i => Real.sqrt (w0 i)) = !![2, 0; 0, 1] := by
  ext i j
  fin_cases i <;> fin_cases j <;>
    simp [w0, Matrix.diagonal, sqrt_four_eq, Real.sqrt_one]

lemma Ebug_eval :
    vrotᵀ * Matrix.diagonal (fun i => Real.sqrt (w0 i)) * vrot = Ebug := by
  rw [diag_sqrt_eval, show vrotᵀ = !![3 / 5, 4 / 5; -4 / 5, 3 / 5] from by
      ext i j; fin_cases i <;> fin_cases j <;> rfl,
    vrot, Ebug, Matrix.mul_fin_two, Matrix.mul_fin_two]
  norm_num

lemma polar_eval :
    vrot * Matrix.diagonal (fun i => Real.sqrt (w0 i)) * vrotᵀ = E0m := by
  rw [diag_sqrt_eval, show vrotᵀ = !![3 / 5, 4 / 5; -4 / 5, 3 / 5] from by
      ext i j; fin_cases i <;> fin_cases j <;> rfl,
    vrot, E0m, Matrix.mul_fin_two, Matrix.mul_fin_two]
  norm_num

lemma Ebug_inv_eval : Ebug⁻¹ = !![41 / 50, 6 / 25; 6 / 25, 17 / 25] := by
  apply Matrix.inv_eq_right_inv
  rw [Ebug, Matrix.mul_fin_two, Matrix.one_fin_two]
  norm_num

lemma Rbug_eval : E0m * !![41 / 50, 6 / 25; 6 / 25, 17 / 25] = Rbug := by
  rw [E0m, Rbug, Matrix.mul_fin_two]
  norm_num

/-- The full pipeline at the concrete input. -/
lemma strain_eval :
    strainfunction eigRot P1 P2 = some ⟨![0, 0], Ebug, Rbug⟩ := by
  rw [strainfunction, if_neg (by decide : ¬ P1.length ≠ P2.length)]
  show some (StrainOut.mk ![fitAffine P1 P2 0, fitAffine P1 P2 1]
      (vrotᵀ * Matrix.diagonal (fun i => Real.sqrt (w0 i)) * vrot)
      (fittedF P1 P2 * (vrotᵀ * Matrix.diagonal (fun i => Real.sqrt (w0 i)) * vrot)⁻¹)) =
    some (StrainOut.mk ![0, 0] Ebug Rbug)
  rw [Ebug_eval, Ebug_inv_eval, fittedF_eval, Rbug_eval]
  simp [fit_eval]

/-- `(w0, vrot)` is a contract-valid output of `LA.eig` at `FᵀF`. -/
lemma eig_contract : IsEigOutput FtF0 w0 vrot := by
  constructor
  · rw [FtF0, vrot, show Matrix.diagonal w0 = !![4, 0; 0, 1] from by
        ext i j; fin_cases i <;> fin_cases j <;> simp [w0, Matrix.diagonal],
      Matrix.mul_fin_two, Matrix.mul_fin_two]
    norm_num
  · intro j
    fin_cases j <;> norm_num [vrot]

/-- The strain `E0m` is positive definite. -/
lemma E0m_posDef : E0m.PosDef := by
  constructor
  · ext i j
    fin_cases i <;> fin_cases j <;> simp [E0m, Matrix.conjTranspose_apply]
  · intro x hx
    have hx' : x 0 ≠ 0 ∨ x 1 ≠ 0 := by
      by_contra hc
      push_neg at hc
      exact hx (funext fun i => by fin_cases i <;> simp [hc.1, hc.2])
    have hq : dotProduct (star x) (E0m *ᵥ x) =
        x 0 ^ 2 + x 1 ^ 2 + (3 * x 0 + 4 * x 1) ^ 2 / 25 := by
      simp [dotProduct, Matrix.mulVec, E0m, Fin.sum_univ_two]
      ring
    rw [hq]
    rcases hx' with h0 | h0
    · nlinarith [sq_nonneg (x 1), sq_nonneg (3 * x 0 + 4 * x 1), mul_self_pos.mpr h0]
    · nlinarith [sq_nonneg (x 0), sq_nonneg (3 * x 0 + 4 * x 1), mul_self_pos.mpr h0]

/-- C1 (code-bug evaluation): at the concrete input `(P1, P2)`, with a
contract-valid eigensolver output `(w0, vrot)` for `FᵀF`, `strainfunction`
does not compute the polar decomposition of the fitted `F`: the returned
strain tensor differs from `V·diag(√λ)·Vᵀ`, its square is not `FᵀF`, and the
returned rotation matrix `F·E⁻¹` is not orthogonal.  (The code conjugates
with the transposes swapped: it computes `E = Vᵀ·diag(√λ)·V`, utils.py
line 196.) -/
theorem strainfunction_not_polar_decomposition :
    IsEigOutput ((fittedF P1 P2)ᵀ * fittedF P1 P2) w0 vrot ∧
    strainfunction eigRot P1 P2 = some ⟨![0, 0], Ebug, Rbug⟩ ∧
    Ebug ≠ vrot * Matrix.diagonal (fun i => Real.sqrt (w0 i)) * vrotᵀ ∧
    Ebug * Ebug ≠ (fittedF P1 P2)ᵀ * fittedF P1 P2 ∧
    Rbugᵀ * Rbug ≠ 1 := by
  refine ⟨by rw [FtF_eval]; exact eig_contract, strain_eval, ?_, ?_, ?_⟩
  · rw [polar_eval]
    intro h
    have h01 := congrFun (congrFun h 0) 1
    norm_num [Ebug, E0m] at h01
  · rw [FtF_eval]
    intro h
    have h01 := congrFun (congrFun h 0) 1
    rw [show (Ebug * Ebug) 0 1 = -36 / 25 from by
        rw [Ebug, Matrix.mul_fin_two]; norm_num] at h01
    norm_num [FtF0] at h01
  · intro h
    have h00 := congrFun (congrFun h 0) 0
    rw [show (Rbugᵀ * Rbug) 0 0 = 833425 / 390625 from by
        rw [show Rbugᵀ = !![769 / 625, 492 / 625; 408 / 625, 769 / 625] from by
            ext i j; fin_cases i <;> fin_cases j <;> rfl,
          Rbug, Matrix.mul_fin_two]
        norm_num] at h00
    norm_num [Matrix.one_apply] at h00

/-- C2 (code-bug evaluation): `P2` is the image of `P1` under the similarity
transform with orthogonal rotation `1`, positive-definite strain `E0m` and
translation `0`, and `(w0, vrot)` is a contract-valid eigensolver output for
the fitted `FᵀF`; yet `strainfunction` recovers neither the strain `E0m` nor
the rotation `1` (exact real arithmetic — the discrepancy `24/25` in the
off-diagonal strain entries is not a rounding tolerance). -/
theorem strainfunction_no_roundtrip :
    P2 = P1.map (fun p =>
      (E0m 0 0 * p.1 + E0m 0 1 * p.2, E0m 1 0 * p.1 + E0m 1 1 * p.2)) ∧
    E0m.PosDef ∧
    (1 : Matrix (Fin 2) (Fin 2) ℝ)ᵀ * 1 = 1 ∧
    IsEigOutput ((fittedF P1 P2)ᵀ * fittedF P1 P2) w0 vrot ∧
    strainfunction eigRot P1 P2 = some ⟨![0, 0], Ebug, Rbug⟩ ∧
    Ebug ≠ E0m ∧ Rbug ≠ 1 := by
  refine ⟨?_, E0m_posDef, by simp, by rw [FtF_eval]; exact eig_contract,
    strain_eval, ?_, ?_⟩
  · simp [P1, P2, E0m]
    norm_num
  · intro h
    have h01 := congrFun (congrFun h 0) 1
    norm_num [Ebug, E0m] at h01
  · intro h
    have h01 := congrFun (congrFun h 0) 1
    norm_num [Rbug, Matrix.one_apply] at h01

end

end LibraryNetUtils
